import Mathlib

/-!
Shallow embedding of the tickit HTTP router core (package router):
Pattern parsing, trie construction and matching, router groups with
middleware inheritance, and the dispatch / Context layer.
Go strings are modelled as lists of characters, Go maps as association
lists with first-match lookup, Go handler and middleware functions as
numeric identifiers (middleware behaviour is recovered through an
interpretation function at dispatch time).
-/

namespace Tickit

/-- Go strings are modelled as lists of characters. -/
abbrev Str := List Char

/-- Convert a Lean string literal to the model type. -/
def str (s : String) : Str := s.toList

def slashC : Char := '/'

def isSlash (c : Char) : Bool := c = slashC

def braceOpen : Char := Char.ofNat 123

def braceClose : Char := Char.ofNat 125

def isBrace (c : Char) : Bool := c = braceOpen || c = braceClose

/-- strings.TrimLeft(s, "/") -/
def trimLeftSlash (s : Str) : Str := s.dropWhile isSlash

/-- strings.TrimRight(s, "/") -/
def trimRightSlash (s : Str) : Str := (s.reverse.dropWhile isSlash).reverse

/-- strings.Trim(s, "/") : removes all leading and trailing slashes. -/
def trimSlashes (s : Str) : Str := trimRightSlash (trimLeftSlash s)

/-- strings.Trim(s, "{}") : removes all leading and trailing braces. -/
def trimBraces (s : Str) : Str := ((s.dropWhile isBrace).reverse.dropWhile isBrace).reverse

/-- strings.Split(s, "/") : Split("", "/") yields one empty piece. -/
def splitSlash : Str → List Str
  | [] => [[]]
  | c :: rest =>
    match splitSlash rest with
    | [] => [[]]
    | s :: ss => if c = slashC then [] :: s :: ss else (c :: s) :: ss

/-- strings.Join(pieces, "/") -/
def joinSlash : List Str → Str
  | [] => []
  | [s] => s
  | s :: rest => s ++ slashC :: joinSlash rest

/-- First-match lookup in an association list (Go map read). -/
def lookupStr {α : Type} : List (Str × α) → Str → Option α
  | [], _ => none
  | (k, v) :: rest, key => if k = key then some v else lookupStr rest key

/-- Replace the value stored under a key (Go map write to an existing key). -/
def updateStr {α : Type} : List (Str × α) → Str → α → List (Str × α)
  | [], _, _ => []
  | (k, v) :: rest, key, nv => if k = key then (key, nv) :: rest else (k, v) :: updateStr rest key nv

/-- Go map assignment: overwrite the key if present, append otherwise. -/
def mapSet : List (Str × Str) → Str → Str → List (Str × Str)
  | [], k, v => [(k, v)]
  | (k', v') :: rest, k, v => if k' = k then (k, v) :: rest else (k', v') :: mapSet rest k v

/-- strings.HasPrefix(seg, "{") -/
def hasBraceAtStart (seg : Str) : Bool :=
  match seg with
  | [] => false
  | c :: _ => c = braceOpen

/-- strings.HasSuffix(seg, "}") -/
def hasBraceAtEnd (seg : Str) : Bool :=
  match seg.getLast? with
  | some c => c = braceClose
  | none => false

/-- A segment is treated as a parameter iff it both starts with "{" and ends with "}". -/
def isParamSeg (seg : Str) : Bool := hasBraceAtStart seg && hasBraceAtEnd seg

/-- Pattern: a route pattern split into segments. -/
structure Pattern where
  segments : List Str
deriving DecidableEq

/-- NewPattern: trim surrounding slashes, split on "/", and collapse the
single-empty-segment case to the empty pattern. -/
def NewPattern (path : Str) : Pattern :=
  let segments := splitSlash (trimSlashes path)
  let segments := if segments = [[]] then [] else segments
  ⟨segments⟩

/-- ParamNames: brace-trimmed names of the parameter segments, in order. -/
def Pattern.ParamNames (p : Pattern) : List Str :=
  (p.segments.filter (fun seg => isParamSeg seg)).map trimBraces

/-- LiteralCount: number of segments that do not start with "{". -/
def Pattern.LiteralCount (p : Pattern) : Nat :=
  (p.segments.filter (fun seg => !hasBraceAtStart seg)).length

/-- Route: handlers and middleware are identified by numeric ids. -/
structure Route where
  Method : Str
  Path : Str
  pat : Pattern
  handler : Nat
  Middleware : List Nat
  paramNames : List Str
deriving DecidableEq

/-- RouterGroup: build-time tree of prefixes, middleware, routes and subgroups. -/
inductive RouterGroup where
  | mk : Str → List Nat → List Route → List RouterGroup → RouterGroup

def RouterGroup.pfx : RouterGroup → Str
  | .mk p _ _ _ => p

def RouterGroup.middleware : RouterGroup → List Nat
  | .mk _ m _ _ => m

def RouterGroup.routes : RouterGroup → List Route
  | .mk _ _ r _ => r

def RouterGroup.groups : RouterGroup → List RouterGroup
  | .mk _ _ _ g => g

/-- NewRouter: the empty root group. -/
def NewRouter : RouterGroup := .mk [] [] [] []

/-- Group: create a child group whose prefix joins the parent prefix with
exactly one slash; the body function performs the registrations made on the
child before it is attached to the parent. -/
def RouterGroup.Group (rg : RouterGroup) (p : Str) (mw : List Nat)
    (body : RouterGroup → RouterGroup) : RouterGroup :=
  let fullPrefix := trimRightSlash rg.pfx ++ slashC :: trimLeftSlash p
  let fullPrefix := if fullPrefix = [slashC] then [] else fullPrefix
  let child := body (.mk fullPrefix mw [] [])
  match rg with
  | .mk a b c gs => .mk a b c (gs ++ [child])

/-- Handle: register a route under the group prefix, keeping only the
route-local middleware at this stage. -/
def RouterGroup.Handle (rg : RouterGroup) (method path : Str) (handler : Nat)
    (mw : List Nat) : RouterGroup :=
  let fullPath := trimRightSlash rg.pfx ++ slashC :: trimLeftSlash path
  let fullPath := if fullPath = [slashC] then [] else fullPath
  let pattern := NewPattern fullPath
  let route : Route := ⟨method, fullPath, pattern, handler, mw, pattern.ParamNames⟩
  match rg with
  | .mk a b rts gs => .mk a b (rts ++ [route]) gs

def RouterGroup.GET (rg : RouterGroup) (path : Str) (handler : Nat) (mw : List Nat) : RouterGroup :=
  rg.Handle (str "GET") path handler mw

def RouterGroup.POST (rg : RouterGroup) (path : Str) (handler : Nat) (mw : List Nat) : RouterGroup :=
  rg.Handle (str "POST") path handler mw

def RouterGroup.PUT (rg : RouterGroup) (path : Str) (handler : Nat) (mw : List Nat) : RouterGroup :=
  rg.Handle (str "PUT") path handler mw

def RouterGroup.DELETE (rg : RouterGroup) (path : Str) (handler : Nat) (mw : List Nat) : RouterGroup :=
  rg.Handle (str "DELETE") path handler mw

def RouterGroup.PATCH (rg : RouterGroup) (path : Str) (handler : Nat) (mw : List Nat) : RouterGroup :=
  rg.Handle (str "PATCH") path handler mw

/-- TrieNode: literal children, at most one parameter child, method-keyed routes. -/
inductive TrieNode where
  | mk : List (Str × TrieNode) → Option TrieNode → List (Str × Route) → TrieNode

def TrieNode.staticChildren : TrieNode → List (Str × TrieNode)
  | .mk sc _ _ => sc

def TrieNode.paramChild : TrieNode → Option TrieNode
  | .mk _ pc _ => pc

def TrieNode.routes : TrieNode → List (Str × Route)
  | .mk _ _ rts => rts

def emptyNode : TrieNode := .mk [] none []

/-- Insert a route into a node by walking the pattern's segments; a terminal
(method, route) binding is only stored when the method is not already bound. -/
def TrieNode.insertRoute : TrieNode → List Str → Route → TrieNode
  | .mk sc pc rts, [], route =>
    match lookupStr rts route.Method with
    | some _ => .mk sc pc rts
    | none => .mk sc pc (rts ++ [(route.Method, route)])
  | .mk sc pc rts, seg :: rest, route =>
    if isParamSeg seg then
      let child := pc.getD emptyNode
      .mk sc (some (child.insertRoute rest route)) rts
    else
      match lookupStr sc seg with
      | some child => .mk (updateStr sc seg (child.insertRoute rest route)) pc rts
      | none => .mk (sc ++ [(seg, emptyNode.insertRoute rest route)]) pc rts

structure Trie where
  root : TrieNode

def NewTrie : Trie := ⟨emptyNode⟩

def Trie.Insert (t : Trie) (route : Route) : Trie :=
  ⟨t.root.insertRoute route.pat.segments route⟩

/-- The main matching loop: walk the path segments, preferring a literal
child over the parameter branch, remembering the last node that had a
parameter branch; when neither branch can consume a segment, a route that
terminates at that remembered parameter branch and whose pattern ends in a
parameter greedily absorbs the remaining slash-joined segments. -/
def matchLoop (segments : List Str) (method : Str) :
    List Str → Nat → TrieNode → List Str → Option (TrieNode × List Str) →
    Option (Route × List Str)
  | [], _, node, paramValues, _ =>
    match lookupStr node.routes method with
    | some route => some (route, paramValues)
    | none => none
  | seg :: rest, i, node, paramValues, lastParam =>
    let lastParam' := if node.paramChild.isSome then some (node, paramValues) else lastParam
    match lookupStr node.staticChildren seg with
    | some child => matchLoop segments method rest (i + 1) child paramValues lastParam'
    | none =>
      match node.paramChild with
      | some pc => matchLoop segments method rest (i + 1) pc (paramValues ++ [seg]) lastParam'
      | none =>
        match lastParam' with
        | some (lpn, paramsSoFar) =>
          match lpn.paramChild with
          | some lpc =>
            match lookupStr lpc.routes method with
            | some route =>
              match route.pat.segments.getLast? with
              | some lastSeg =>
                if isParamSeg lastSeg then
                  some (route, paramsSoFar ++ [joinSlash (segments.drop (i - 1))])
                else none
              | none => none
            | none => none
          | none => none
        | none => none

/-- Match: normalize the path, split into segments, and run the loop;
an empty normalized path resolves against the root node's routes. -/
def Trie.Match (t : Trie) (method path : Str) : Option (Route × List Str) :=
  let normalizedPath := trimSlashes path
  if normalizedPath = [] then
    match lookupStr t.root.routes method with
    | some route => some (route, [])
    | none => none
  else
    let segments0 := splitSlash normalizedPath
    let segments := if path = [slashC] ∧ segments0 = [[]] then [] else segments0
    if segments = [] then
      match lookupStr t.root.routes method with
      | some route => some (route, [])
      | none => none
    else
      matchLoop segments method segments 0 t.root [] none

mutual

/-- buildRoutes: prepend the accumulated ancestor middleware to every local
route and recurse into the subgroups with the extended accumulation. -/
def RouterGroup.buildRoutes : RouterGroup → List Nat → List Route
  | .mk _ mw rts gs, parentMw =>
    let current := parentMw ++ mw
    (rts.map fun r => { r with Middleware := current ++ r.Middleware }) ++
      buildRoutesList gs current

def buildRoutesList : List RouterGroup → List Nat → List Route
  | [], _ => []
  | g :: gs, current => g.buildRoutes current ++ buildRoutesList gs current

end

/-- Stable insertion of a route before the first strictly-smaller literal count. -/
def insertByCount (r : Route) : List Route → List Route
  | [] => [r]
  | x :: xs =>
    if x.pat.LiteralCount < r.pat.LiteralCount then r :: x :: xs else x :: insertByCount r xs

/-- Sort routes by literal count, descending. -/
def sortRoutes (rs : List Route) : List Route :=
  rs.foldl (fun acc r => insertByCount r acc) []

/-- Build: flatten the group tree and sort by literal count descending. -/
def RouterGroup.Build (rg : RouterGroup) : List Route :=
  sortRoutes (rg.buildRoutes [])

/-- Context: resolved parameters plus the matched path pattern. -/
structure Ctx where
  Params : List (Str × Str)
  path : Str
deriving DecidableEq

/-- Param: a missing key reads as the empty string (Go map default). -/
def Ctx.Param (c : Ctx) (key : Str) : Str := (lookupStr c.Params key).getD []

/-- Observable outcome of dispatching one request. -/
inductive Outcome where
  | notFound : Outcome
  | handled : Nat → Ctx → List Nat → Outcome
deriving DecidableEq

/-- Context construction after a successful match: parameters are populated
only when the matched route's name count equals the captured value count. -/
def buildContext (route : Route) (paramValues : List Str) : Ctx :=
  let params : List (Str × Str) :=
    if route.paramNames.length = paramValues.length then
      (route.paramNames.zip paramValues).foldl (fun m kv => mapSet m kv.1 kv.2) []
    else []
  ⟨params, route.Path⟩

/-- The handled outcome for a successful match. -/
def handleMatch (route : Route) (paramValues : List Str) : Outcome :=
  .handled route.handler (buildContext route paramValues) route.Middleware

/-- Compile the sorted route list into a trie, in list order. -/
def mkTrie (rs : List Route) : Trie := rs.foldl Trie.Insert NewTrie

/-- ServeMux entry point as a pure dispatch function: build once, match,
and either construct the handled outcome or fall through to 404. -/
def dispatch (rg : RouterGroup) (method path : Str) : Outcome :=
  match (mkTrie rg.Build).Match method path with
  | some (route, paramValues) => handleMatch route paramValues
  | none => .notFound

/-- Response produced by running a request: a status and a trace of events. -/
structure HResp where
  status : Nat
  trace : List Nat
deriving DecidableEq

/-- The middleware-wrapping loop of ServeMux: iterate from the last
middleware down to the first, so the first ends up outermost. -/
def composeChain {H : Type} (interp : Nat → H → H) (mids : List Nat) (inner : H) : H :=
  mids.reverse.foldl (fun h m => interp m h) inner

/-- Execute an outcome: a miss writes 404 and runs nothing; a hit runs the
composed middleware chain around the handler's response. -/
def run (o : Outcome) (interp : Nat → HResp → HResp) (hr : Nat → Ctx → HResp) : HResp :=
  match o with
  | .notFound => ⟨404, []⟩
  | .handled hid ctx mids => composeChain interp mids (hr hid ctx)

/-- Response writer state: headers, the committed status (first WriteHeader
wins), the body chunks written, and the log lines emitted. -/
structure RespWriter where
  headers : List (Str × Str)
  committed : Option Nat
  body : List Str
  logs : List Str
deriving DecidableEq

def RespWriter.headerSet (w : RespWriter) (k v : Str) : RespWriter :=
  { w with headers := mapSet w.headers k v }

/-- WriteHeader: only the first call commits a status; later calls are ignored. -/
def RespWriter.writeHeader (w : RespWriter) (status : Nat) : RespWriter :=
  match w.committed with
  | none => { w with committed := some status }
  | some _ => w

def RespWriter.bodyWrite (w : RespWriter) (chunk : Str) : RespWriter :=
  { w with body := w.body ++ [chunk] }

def encodeFailMsg : Str := str "Failed to encode JSON response"

def fallbackBody : Str := str "\x7b\"error\": \"Internal server error during response encoding\"\x7d"

/-- Context.JSON: set the content type, write the status, then encode; on an
encoding failure, log, and write the fixed fallback body exactly when the
status argument is below 400. The encoder outcome is passed in as an option. -/
def JSONwrite (w : RespWriter) (status : Nat) (encoded : Option Str) : RespWriter :=
  let w := w.headerSet (str "Content-Type") (str "application/json")
  let w := w.writeHeader status
  match encoded with
  | some b => w.bodyWrite b
  | none =>
    let w := { w with logs := w.logs ++ [encodeFailMsg] }
    if status < 400 then w.bodyWrite fallbackBody else w

def emptyWriter : RespWriter := ⟨[], none, [], []⟩

/-- A chain of nested groups, each carrying its own middleware list, with a
single route registered in the innermost group. -/
def nestChain : List (List Nat) → Route → RouterGroup
  | [], r => .mk [] [] [r] []
  | mw :: rest, r => .mk [] mw [] [nestChain rest r]

/-- A demonstration middleware semantics: id 99 short-circuits with a 403
and its own trace; every other id prepends itself to the inner trace. -/
def interpDemo : Nat → HResp → HResp :=
  fun m resp => if m = 99 then ⟨403, [99]⟩ else ⟨resp.status, m :: resp.trace⟩

mutual

/-- All (method key, route) bindings stored anywhere in a node's subtree. -/
def TrieNode.allRoutes : TrieNode → List (Str × Route)
  | .mk sc pc rts =>
    rts ++ allRoutesChildren sc ++
      (match pc with
       | some c => c.allRoutes
       | none => [])

def allRoutesChildren : List (Str × TrieNode) → List (Str × Route)
  | [] => []
  | (_, c) :: rest => c.allRoutes ++ allRoutesChildren rest

end

/- Concrete routers used by the claim theorems. -/

def routerC1a : RouterGroup :=
  (NewRouter.GET (str "/users/\x7bid\x7d") 1 []).GET (str "/users/profile") 2 []

def routerC1b : RouterGroup :=
  (NewRouter.GET (str "/users/profile") 2 []).GET (str "/users/\x7bid\x7d") 1 []

def routerC2 : RouterGroup := NewRouter.GET (str "/a/\x7bx\x7d") 1 []

def routerC2lit : RouterGroup := NewRouter.GET (str "/a/b") 2 []

def routerC3 : RouterGroup := NewRouter.GET (str "/drive/files/\x7bpath...\x7d") 5 []

/-- The Context the drive router produces for /drive/files/docs/report.pdf:
the capture is stored under the name "path...", dots included. -/
def driveCtx : Ctx :=
  ⟨[(str "path...", str "docs/report.pdf")], str "/drive/files/\x7bpath...\x7d"⟩

def routerC4 : RouterGroup := NewRouter.GET (str "/a/\x7bx...\x7d/b") 7 []

def routerC4b : RouterGroup := NewRouter.Handle (str "GET") (str "/a/\x7bx") 8 []

def routerC5 : RouterGroup := NewRouter.GET (str "/users") 1 []

def routerC7 : RouterGroup := NewRouter.GET (str "/users/\x7bid\x7d") 9 []

def routerC8 : RouterGroup :=
  (NewRouter.GET (str "/a/\x7bx\x7d/p") 1 []).GET (str "/a/\x7by\x7d") 2 []

def routerC8b : RouterGroup :=
  (NewRouter.GET (str "/users/\x7bid\x7d") 3 []).GET (str "/users/\x7bname\x7d") 4 []

/-- A route whose declared parameter names cannot be matched by an empty
capture list; used to exercise the defensive length guard of the dispatcher. -/
def routeMismatch : Route :=
  ⟨str "GET", str "/w/\x7bx\x7d", NewPattern (str "/w/\x7bx\x7d"), 11, [], [str "x"]⟩

/-- The flattened route registered by routerC5. -/
def usersRoute : Route := ⟨str "GET", str "/users", ⟨[str "users"]⟩, 1, [], []⟩

/-- A node with both a literal child for "a" and a parameter branch. -/
def nodeBoth : TrieNode := .mk [(str "a", emptyNode)] (some emptyNode) []

/- ------------------------------------------------------------------ -/
/- Theorems                                                            -/
/- ------------------------------------------------------------------ -/

theorem lookupStr_mem {α : Type} (l : List (Str × α)) (k : Str) (v : α)
    (h : lookupStr l k = some v) : (k, v) ∈ l := by
  induction l with
  | nil => simp [lookupStr] at h
  | cons kv rest ih =>
    obtain ⟨k', v'⟩ := kv
    simp only [lookupStr] at h
    by_cases hk : k' = k
    · rw [if_pos hk] at h
      injection h with h
      subst hk
      subst h
      exact List.mem_cons_self _ _
    · rw [if_neg hk] at h
      exact List.mem_cons_of_mem _ (ih h)

theorem nestChain_buildRoutes (mws : List (List Nat)) (r : Route) (pm : List Nat) :
    (nestChain mws r).buildRoutes pm = [{ r with Middleware := (pm ++ mws.flatten) ++ r.Middleware }] := by
  induction mws generalizing pm with
  | nil => simp [nestChain, RouterGroup.buildRoutes, buildRoutesList]
  | cons mw rest ih =>
    simp [nestChain, RouterGroup.buildRoutes, buildRoutesList, ih, List.append_assoc]

/-- C6: for every route produced by Build, the middleware list is the
concatenation of the ancestor groups' middleware in root-to-leaf order
followed by the route-local middleware; the dispatcher's wrapping loop makes
the first middleware of that list the outermost wrapper, so it executes
first, and a middleware that does not invoke its inner handler prevents
every later middleware and the handler from contributing to the response. -/
theorem claim_C6 :
    (∀ (mws : List (List Nat)) (r : Route),
      (nestChain mws r).Build = [{ r with Middleware := mws.flatten ++ r.Middleware }]) ∧
    (∀ (H : Type) (interp : Nat → H → H) (mids : List Nat) (inner : H),
      composeChain interp mids inner = mids.foldr interp inner) ∧
    (∀ (hid : Nat) (ctx : Ctx) (mids : List Nat) (interp : Nat → HResp → HResp)
      (hr : Nat → Ctx → HResp),
      run (.handled hid ctx mids) interp hr = composeChain interp mids (hr hid ctx)) ∧
    composeChain interpDemo [1, 2] ⟨200, [0]⟩ = (⟨200, [1, 2, 0]⟩ : HResp) ∧
    composeChain interpDemo [1, 99, 3] ⟨200, [0]⟩ = (⟨403, [1, 99]⟩ : HResp) := by
  refine ⟨?_, ?_, fun _ _ _ _ _ => rfl, by decide, by decide⟩
  · intro mws r
    simp [RouterGroup.Build, nestChain_buildRoutes, sortRoutes, insertByCount]
  · intro H interp mids inner
    unfold composeChain
    rw [List.foldl_reverse]

/-- C1: at every trie node, matching consumes a segment through the exact
literal child whenever one exists, ignoring the parameter branch; with both
GET /users/(id) and GET /users/profile registered, in either order, a GET
request to /users/profile resolves to the profile handler (2), not the
parameter handler (1). -/
theorem claim_C1 :
    (∀ (segments : List Str) (method seg : Str) (rest : List Str) (i : Nat)
      (node child : TrieNode) (vals : List Str) (lastP : Option (TrieNode × List Str)),
      lookupStr node.staticChildren seg = some child →
      matchLoop segments method (seg :: rest) i node vals lastP =
        matchLoop segments method rest (i + 1) child vals
          (if node.paramChild.isSome then some (node, vals) else lastP)) ∧
    dispatch routerC1a (str "GET") (str "/users/profile")
      = .handled 2 ⟨[], str "/users/profile"⟩ [] ∧
    dispatch routerC1b (str "GET") (str "/users/profile")
      = .handled 2 ⟨[], str "/users/profile"⟩ [] := by
  refine ⟨?_, by decide, by decide⟩
  intro segments method seg rest i node child vals lastP h
  simp only [matchLoop, h]

/-- Witness for C1: a concrete node carrying both a literal child for "a"
and a parameter branch; the step for segment "a" descends the literal child. -/
theorem claim_C1_witness :
    matchLoop [str "a"] (str "GET") [str "a"] 0 nodeBoth [] none =
      matchLoop [str "a"] (str "GET") [] 1 emptyNode []
        (if nodeBoth.paramChild.isSome then some (nodeBoth, []) else none) :=
  claim_C1.1 [str "a"] (str "GET") (str "a") [] 0 nodeBoth emptyNode [] none rfl

/-- C2 counterexample: with GET /a/(x) registered alone, a GET request to
/a/v/c does match (the trailing parameter greedily absorbs "v/c"), so the
claimed universal no-match on longer paths is false. -/
theorem claim_C2_cex :
    dispatch routerC2 (str "GET") (str "/a/v/c")
      = .handled 1 ⟨[(str "x", str "v/c")], str "/a/\x7bx\x7d"⟩ [] ∧
    dispatch routerC2 (str "GET") (str "/a/v/c") ≠ Outcome.notFound := by
  decide

/-- C2 amended: a parameter segment consumes exactly one segment during
standard descent, but when descent fails the implicit greedy fallback lets a
pattern whose final segment is a parameter absorb all remaining segments:
GET /a/(x) alone matches /a/v/c with x = "v/c", while a pattern ending in a
literal never matches a longer path (GET /a/b against /a/b/c is 404). -/
theorem claim_C2 :
    dispatch routerC2 (str "GET") (str "/a/v/c")
      = .handled 1 ⟨[(str "x", str "v/c")], str "/a/\x7bx\x7d"⟩ [] ∧
    dispatch routerC2lit (str "GET") (str "/a/b/c") = Outcome.notFound := by
  decide

/-- C3 counterexample: with /drive/files/(path...) registered, the matching
request binds the capture under the literal brace-trimmed name "path...",
so Param("path") returns the empty string, not "docs/report.pdf". -/
theorem claim_C3_cex :
    dispatch routerC3 (str "GET") (str "/drive/files/docs/report.pdf")
      = .handled 5 driveCtx [] ∧
    driveCtx.Param (str "path") = [] ∧
    driveCtx.Param (str "path") ≠ str "docs/report.pdf" := by
  decide

/-- C3 amended: the catch-all-style pattern does capture the full remaining
slash-joined suffix, but under the name "path..." (braces stripped, dots
kept): Param("path...") = "docs/report.pdf" while Param("path") is empty. -/
theorem claim_C3 :
    dispatch routerC3 (str "GET") (str "/drive/files/docs/report.pdf")
      = .handled 5 driveCtx [] ∧
    driveCtx.Param (str "path...") = str "docs/report.pdf" := by
  decide

/-- C4 counterexample: registering the non-final catch-all template
/a/(x...)/b does not fail — the route is stored, and the template's meaning
is only observable at request time, where /a/q/b matches with x... = "q". -/
theorem claim_C4_cex :
    routerC4.routes.length = 1 ∧
    dispatch routerC4 (str "GET") (str "/a/q/b")
      = .handled 7 ⟨[(str "x...", str "q")], str "/a/\x7bx...\x7d/b"⟩ [] := by
  decide

/-- C4 amended: registration performs no template validation and never
fails: Handle always appends exactly one route, for every path, including a
non-final catch-all marker and an unterminated brace; any misbehaviour of
such a template is first observed at request time. -/
theorem claim_C4 :
    (∀ (rg : RouterGroup) (m p : Str) (hid : Nat) (mw : List Nat),
      (rg.Handle m p hid mw).routes.length = rg.routes.length + 1) ∧
    routerC4b.routes.length = 1 ∧
    routerC4.routes.length = 1 ∧
    dispatch routerC4 (str "GET") (str "/a/q/b")
      = .handled 7 ⟨[(str "x...", str "q")], str "/a/\x7bx...\x7d/b"⟩ [] := by
  refine ⟨?_, by decide, by decide, by decide⟩
  intro rg m p hid mw
  cases rg with
  | mk a b c d => simp [RouterGroup.Handle, RouterGroup.routes]

/-- C8 counterexample: GET /a/(x)/p sorts before GET /a/(y) (two literals
versus one), both placing a parameter at the same trie position; yet a match
of the second route captures under its own name "y", and Param("x") is
empty — the earlier route's parameter name does not win for the other
route's matches. -/
theorem claim_C8_cex :
    routerC8.Build.map Route.handler = [1, 2] ∧
    dispatch routerC8 (str "GET") (str "/a/v")
      = .handled 2 ⟨[(str "y", str "v")], str "/a/\x7by\x7d"⟩ [] ∧
    Ctx.Param ⟨[(str "y", str "v")], str "/a/\x7by\x7d"⟩ (str "x") = [] := by
  decide

/-- C8 amended: the trie stores parameter values positionally and names them
from the matched route's own parameter names. Only when two parameter routes
with the same method terminate at the same trie node does the route earlier
in the sorted flattened list own the terminal entirely — handler and
parameter name — for requests matching either pattern (GET /users/(id)
before GET /users/(name): /users/5 resolves to handler 3 with id = "5");
parameter routes that merely share the branch position but terminate
differently each capture under their own names. -/
theorem claim_C8 :
    routerC8b.Build.map Route.handler = [3, 4] ∧
    dispatch routerC8b (str "GET") (str "/users/5")
      = .handled 3 ⟨[(str "id", str "5")], str "/users/\x7bid\x7d"⟩ [] ∧
    dispatch routerC8 (str "GET") (str "/a/v")
      = .handled 2 ⟨[(str "y", str "v")], str "/a/\x7by\x7d"⟩ [] := by
  decide

/-- C9 counterexample: JSON writes the success status before encoding, so
when encoding fails with status 200 the success status has already been
committed to the client — and the fallback body is emitted anyway,
contradicting "if the success status was already written, no fallback body
is emitted". -/
theorem claim_C9_cex :
    (JSONwrite emptyWriter 200 none).committed = some 200 ∧
    (JSONwrite emptyWriter 200 none).body = [fallbackBody] := by
  decide

/-- C9 amended: on a serialization failure JSON logs, and emits the fallback
body exactly when the status argument is below 400, regardless of whether a
status was already committed; the status itself is always issued before
encoding (the first committed status wins). -/
theorem claim_C9 :
    ∀ (w : RespWriter) (status : Nat) (enc : Option Str),
      (JSONwrite w status none).body
        = w.body ++ (if status < 400 then [fallbackBody] else []) ∧
      (JSONwrite w status none).logs = w.logs ++ [encodeFailMsg] ∧
      (JSONwrite w status enc).committed = some (w.committed.getD status) := by
  intro w status enc
  unfold JSONwrite RespWriter.headerSet RespWriter.writeHeader RespWriter.bodyWrite
  cases hc : w.committed <;> by_cases hs : status < 400 <;> cases enc <;> simp [hs]

/-- C10: whenever the matched route's declared parameter names and the
captured values disagree in number, the dispatcher still produces the
handled outcome for the route's handler, but with a completely empty
parameter map, so Param returns the empty string for every name. -/
theorem claim_C10 :
    ∀ (route : Route) (vals : List Str),
      route.paramNames.length ≠ vals.length →
      (buildContext route vals).Params = [] ∧
      handleMatch route vals
        = .handled route.handler (buildContext route vals) route.Middleware ∧
      ∀ name : Str, (buildContext route vals).Param name = [] := by
  intro route vals h
  refine ⟨?_, rfl, ?_⟩
  · simp [buildContext, h]
  · intro name
    simp [Ctx.Param, buildContext, h, lookupStr]

/-- Witness for C10: a route declaring one parameter name against an empty
capture list. -/
theorem claim_C10_witness :
    (buildContext routeMismatch []).Params = [] ∧
    (buildContext routeMismatch []).Param (str "x") = [] :=
  ⟨(claim_C10 routeMismatch [] (by decide)).1,
   (claim_C10 routeMismatch [] (by decide)).2.2 (str "x")⟩

theorem splitSlash_ne_nil (s : Str) : splitSlash s ≠ [] := by
  induction s with
  | nil => simp [splitSlash]
  | cons c rest ih =>
    simp only [splitSlash]
    cases h : splitSlash rest with
    | nil => exact absurd h ih
    | cons a as => by_cases hc : c = slashC <;> simp [hc]

theorem splitSlash_eq_single (s : Str) (h : splitSlash s = [[]]) : s = [] := by
  cases s with
  | nil => rfl
  | cons c rest =>
    exfalso
    simp only [splitSlash] at h
    cases hs : splitSlash rest with
    | nil => exact splitSlash_ne_nil rest hs
    | cons a as =>
      rw [hs] at h
      by_cases hc : c = slashC
      · simp [hc] at h
      · simp [hc] at h

theorem isSlash_slashC : isSlash slashC = true := rfl

theorem trimLeftSlash_cons_slash (p : Str) : trimLeftSlash (slashC :: p) = trimLeftSlash p := rfl

theorem trimRightSlash_append_slash (p : Str) : trimRightSlash (p ++ [slashC]) = trimRightSlash p := by
  unfold trimRightSlash
  rw [List.reverse_append]
  simp [List.dropWhile_cons, isSlash_slashC]

theorem trimSlashes_append_slash (p : Str) : trimSlashes (p ++ [slashC]) = trimSlashes p := by
  unfold trimSlashes trimLeftSlash
  rw [List.dropWhile_append]
  by_cases h : (List.dropWhile isSlash p).isEmpty
  · have h' : List.dropWhile isSlash p = [] := by simpa [List.isEmpty_iff] using h
    rw [h', if_pos]
    · rfl
    · rfl
  · rw [if_neg h]
    exact trimRightSlash_append_slash _

theorem trimSlashes_cons_slash (p : Str) : trimSlashes (slashC :: p) = trimSlashes p := by
  unfold trimSlashes
  rw [trimLeftSlash_cons_slash]

theorem Match_congr_trim (t : Trie) (m p q : Str) (h : trimSlashes p = trimSlashes q) :
    t.Match m p = t.Match m q := by
  unfold Trie.Match
  rw [h]
  by_cases hq : trimSlashes q = []
  · simp [hq]
  · have hne : splitSlash (trimSlashes q) ≠ [[]] :=
      fun hc => hq (splitSlash_eq_single _ hc)
    simp [hq, hne]

/-- C7: matching is invariant under a trailing or a leading slash — Match
normalizes by trimming surrounding slashes before walking, so it returns
exactly the same route and captured values; concretely /users/123 and
/users/123/ both resolve GET /users/(id) with id = "123". -/
theorem claim_C7 :
    (∀ (t : Trie) (method p : Str), t.Match method (p ++ [slashC]) = t.Match method p) ∧
    (∀ (t : Trie) (method p : Str), t.Match method (slashC :: p) = t.Match method p) ∧
    dispatch routerC7 (str "GET") (str "/users/123")
      = .handled 9 ⟨[(str "id", str "123")], str "/users/\x7bid\x7d"⟩ [] ∧
    dispatch routerC7 (str "GET") (str "/users/123/")
      = .handled 9 ⟨[(str "id", str "123")], str "/users/\x7bid\x7d"⟩ [] := by
  refine ⟨?_, ?_, by decide, by decide⟩
  · intro t method p
    exact Match_congr_trim t method _ p (trimSlashes_append_slash p)
  · intro t method p
    exact Match_congr_trim t method _ p (trimSlashes_cons_slash p)

theorem emptyNode_allRoutes : emptyNode.allRoutes = [] := rfl

theorem allRoutes_mk (sc : List (Str × TrieNode)) (pc : Option TrieNode)
    (rts : List (Str × Route)) :
    (TrieNode.mk sc pc rts).allRoutes
      = rts ++ allRoutesChildren sc ++
          (match pc with
           | some c => c.allRoutes
           | none => []) := by
  rw [TrieNode.allRoutes.eq_def]

theorem mem_allRoutes_of_mem_routes (node : TrieNode) (p : Str × Route)
    (h : p ∈ node.routes) : p ∈ node.allRoutes := by
  cases node with
  | mk sc pc rts =>
    rw [allRoutes_mk]
    simp only [TrieNode.routes] at h
    exact List.mem_append_left _ (List.mem_append_left _ h)

theorem mem_allRoutesChildren (sc : List (Str × TrieNode)) (k : Str) (c : TrieNode)
    (hm : (k, c) ∈ sc) (p : Str × Route) (hp : p ∈ c.allRoutes) :
    p ∈ allRoutesChildren sc := by
  induction sc with
  | nil => simp at hm
  | cons e rest ih =>
    obtain ⟨k', c'⟩ := e
    rw [allRoutesChildren]
    rcases List.mem_cons.mp hm with he | hm'
    · obtain ⟨h1, h2⟩ := Prod.mk.injEq .. ▸ he
      subst h2
      exact List.mem_append_left _ hp
    · exact List.mem_append_right _ (ih hm')

theorem mem_allRoutes_of_static (node : TrieNode) (k : Str) (c : TrieNode)
    (hm : (k, c) ∈ node.staticChildren) (p : Str × Route) (hp : p ∈ c.allRoutes) :
    p ∈ node.allRoutes := by
  cases node with
  | mk sc pc rts =>
    rw [allRoutes_mk]
    simp only [TrieNode.staticChildren] at hm
    exact List.mem_append_left _
      (List.mem_append_right _ (mem_allRoutesChildren sc k c hm p hp))

theorem mem_allRoutes_of_paramChild (node : TrieNode) (c : TrieNode)
    (hpc : node.paramChild = some c) (p : Str × Route) (hp : p ∈ c.allRoutes) :
    p ∈ node.allRoutes := by
  cases node with
  | mk sc pc rts =>
    rw [allRoutes_mk]
    simp only [TrieNode.paramChild] at hpc
    subst hpc
    exact List.mem_append_right _ hp

theorem allRoutesChildren_append (a b : List (Str × TrieNode)) :
    allRoutesChildren (a ++ b) = allRoutesChildren a ++ allRoutesChildren b := by
  induction a with
  | nil => simp [allRoutesChildren]
  | cons e rest ih =>
    obtain ⟨k, c⟩ := e
    simp [allRoutesChildren, ih]

theorem allRoutesChildren_update (sc : List (Str × TrieNode)) (k : Str) (nv : TrieNode)
    (p : Str × Route) (h : p ∈ allRoutesChildren (updateStr sc k nv)) :
    p ∈ allRoutesChildren sc ∨ p ∈ nv.allRoutes := by
  induction sc with
  | nil => simp [updateStr, allRoutesChildren] at h
  | cons e rest ih =>
    obtain ⟨k', c'⟩ := e
    simp only [updateStr] at h
    by_cases hk : k' = k
    · rw [if_pos hk] at h
      rw [allRoutesChildren] at h
      rcases List.mem_append.mp h with h1 | h2
      · exact Or.inr h1
      · exact Or.inl (by rw [allRoutesChildren]; exact List.mem_append_right _ h2)
    · rw [if_neg hk] at h
      rw [allRoutesChildren] at h
      rcases List.mem_append.mp h with h1 | h2
      · exact Or.inl (by rw [allRoutesChildren]; exact List.mem_append_left _ h1)
      · rcases ih h2 with h3 | h3
        · exact Or.inl (by rw [allRoutesChildren]; exact List.mem_append_right _ h3)
        · exact Or.inr h3

theorem insertRoute_allRoutes (segs : List Str) (node : TrieNode) (r : Route)
    (p : Str × Route) (h : p ∈ (node.insertRoute segs r).allRoutes) :
    p ∈ node.allRoutes ∨ p = (r.Method, r) := by
  induction segs generalizing node with
  | nil =>
    cases node with
    | mk sc pc rts =>
      rw [TrieNode.insertRoute] at h
      cases hl : lookupStr rts r.Method with
      | some _ =>
        rw [hl] at h
        exact Or.inl h
      | none =>
        rw [hl] at h
        rw [allRoutes_mk] at h
        rw [allRoutes_mk]
        rcases List.mem_append.mp h with h1 | h2
        · rcases List.mem_append.mp h1 with h3 | h4
          · rcases List.mem_append.mp h3 with h5 | h6
            · exact Or.inl (List.mem_append_left _ (List.mem_append_left _ h5))
            · exact Or.inr (by simpa using h6)
          · exact Or.inl (List.mem_append_left _ (List.mem_append_right _ h4))
        · exact Or.inl (List.mem_append_right _ h2)
  | cons seg rest ih =>
    cases node with
    | mk sc pc rts =>
      rw [TrieNode.insertRoute] at h
      by_cases hp : isParamSeg seg = true
      · rw [if_pos hp] at h
        rw [allRoutes_mk] at h
        rw [allRoutes_mk]
        rcases List.mem_append.mp h with h1 | h2
        · exact Or.inl (List.mem_append_left _ h1)
        · rcases ih (pc.getD emptyNode) h2 with h3 | h3
          · cases hpc : pc with
            | none =>
              rw [hpc] at h3
              simp [emptyNode_allRoutes] at h3
            | some c =>
              rw [hpc] at h3
              exact Or.inl (List.mem_append_right _ h3)
          · exact Or.inr h3
      · rw [if_neg hp] at h
        cases hl : lookupStr sc seg with
        | some child =>
          rw [hl] at h
          rw [allRoutes_mk] at h
          rw [allRoutes_mk]
          rcases List.mem_append.mp h with h1 | h2
          · rcases List.mem_append.mp h1 with h3 | h4
            · exact Or.inl (List.mem_append_left _ (List.mem_append_left _ h3))
            · rcases allRoutesChildren_update sc seg _ p h4 with h5 | h5
              · exact Or.inl (List.mem_append_left _ (List.mem_append_right _ h5))
              · rcases ih child h5 with h6 | h6
                · exact Or.inl (List.mem_append_left _ (List.mem_append_right _
                    (mem_allRoutesChildren sc seg child (lookupStr_mem sc seg child hl) p h6)))
                · exact Or.inr h6
          · exact Or.inl (List.mem_append_right _ h2)
        | none =>
          rw [hl] at h
          rw [allRoutes_mk] at h
          rw [allRoutes_mk]
          rcases List.mem_append.mp h with h1 | h2
          · rcases List.mem_append.mp h1 with h3 | h4
            · exact Or.inl (List.mem_append_left _ (List.mem_append_left _ h3))
            · rw [allRoutesChildren_append] at h4
              rcases List.mem_append.mp h4 with h5 | h6
              · exact Or.inl (List.mem_append_left _ (List.mem_append_right _ h5))
              · rw [allRoutesChildren] at h6
                rcases List.mem_append.mp h6 with h7 | h8
                · rcases ih emptyNode h7 with h9 | h9
                  · simp [emptyNode_allRoutes] at h9
                  · exact Or.inr h9
                · simp [allRoutesChildren] at h8
          · exact Or.inl (List.mem_append_right _ h2)

theorem matchLoop_mem (segments : List Str) (method : Str) (R : List (Str × Route)) :
    ∀ (rest : List Str) (i : Nat) (node : TrieNode) (vals : List Str)
      (lastP : Option (TrieNode × List Str)) (r : Route) (vs : List Str),
      (∀ p ∈ node.allRoutes, p ∈ R) →
      (∀ n' vs', lastP = some (n', vs') → ∀ p ∈ n'.allRoutes, p ∈ R) →
      matchLoop segments method rest i node vals lastP = some (r, vs) →
      (method, r) ∈ R := by
  intro rest
  induction rest with
  | nil =>
    intro i node vals lastP r vs hnode _ h
    simp only [matchLoop] at h
    cases hl : lookupStr node.routes method with
    | none => rw [hl] at h; exact absurd h (by simp)
    | some route =>
      rw [hl] at h
      rw [Option.some.injEq, Prod.mk.injEq] at h
      obtain ⟨h1, _⟩ := h
      subst h1
      exact hnode _ (mem_allRoutes_of_mem_routes node _ (lookupStr_mem _ _ _ hl))
  | cons seg rest ih =>
    intro i node vals lastP r vs hnode hlast h
    cases hpc : node.paramChild with
    | some pc =>
      have hlast' : ∀ n' vs', (some (node, vals) : Option (TrieNode × List Str)) = some (n', vs') →
          ∀ p ∈ n'.allRoutes, p ∈ R := by
        intro n' vs' he
        rw [Option.some.injEq, Prod.mk.injEq] at he
        obtain ⟨he1, _⟩ := he
        subst he1
        exact hnode
      cases hsl : lookupStr node.staticChildren seg with
      | some child =>
        simp only [matchLoop, hpc, hsl, Option.isSome_some, if_true] at h
        exact ih (i + 1) child vals _ r vs
          (fun p hp => hnode p (mem_allRoutes_of_static node seg child (lookupStr_mem _ _ _ hsl) p hp))
          hlast' h
      | none =>
        simp only [matchLoop, hpc, hsl, Option.isSome_some, if_true] at h
        exact ih (i + 1) pc (vals ++ [seg]) _ r vs
          (fun p hp => hnode p (mem_allRoutes_of_paramChild node pc hpc p hp))
          hlast' h
    | none =>
      cases hsl : lookupStr node.staticChildren seg with
      | some child =>
        simp only [matchLoop, hpc, hsl, Option.isSome_none, Bool.false_eq_true, if_false] at h
        exact ih (i + 1) child vals lastP r vs
          (fun p hp => hnode p (mem_allRoutes_of_static node seg child (lookupStr_mem _ _ _ hsl) p hp))
          hlast h
      | none =>
        cases hlp : lastP with
        | none =>
          simp only [matchLoop, hpc, hsl, hlp, Option.isSome_none, Bool.false_eq_true,
            if_false] at h
          exact Option.noConfusion h
        | some pr =>
          obtain ⟨lpn, sofar⟩ := pr
          cases hlpc : lpn.paramChild with
          | none =>
            simp only [matchLoop, hpc, hsl, hlp, hlpc, Option.isSome_none, Bool.false_eq_true,
              if_false] at h
            exact Option.noConfusion h
          | some lpc =>
            cases hlr : lookupStr lpc.routes method with
            | none =>
              simp only [matchLoop, hpc, hsl, hlp, hlpc, hlr, Option.isSome_none,
                Bool.false_eq_true, if_false] at h
              exact Option.noConfusion h
            | some route =>
              cases hgl : route.pat.segments.getLast? with
              | none =>
                simp only [matchLoop, hpc, hsl, hlp, hlpc, hlr, hgl, Option.isSome_none,
                  Bool.false_eq_true, if_false] at h
                exact Option.noConfusion h
              | some lastSeg =>
                by_cases hps : isParamSeg lastSeg = true
                · simp only [matchLoop, hpc, hsl, hlp, hlpc, hlr, hgl, hps, Option.isSome_none,
                    Bool.false_eq_true, if_false, if_true] at h
                  rw [Option.some.injEq, Prod.mk.injEq] at h
                  obtain ⟨h1, _⟩ := h
                  subst h1
                  exact hlast lpn sofar hlp _
                    (mem_allRoutes_of_paramChild lpn lpc hlpc _
                      (mem_allRoutes_of_mem_routes lpc _ (lookupStr_mem _ _ _ hlr)))
                · simp only [matchLoop, hpc, hsl, hlp, hlpc, hlr, hgl, hps, Option.isSome_none,
                    Bool.false_eq_true, if_false] at h
                  exact Option.noConfusion h

theorem foldl_insert_allRoutes (rs : List Route) :
    ∀ (t : Trie) (p : Str × Route),
      p ∈ (rs.foldl Trie.Insert t).root.allRoutes →
      p ∈ t.root.allRoutes ∨ ∃ r ∈ rs, p = (r.Method, r) := by
  induction rs with
  | nil =>
    intro t p h
    exact Or.inl (by simpa using h)
  | cons r rest ih =>
    intro t p h
    rw [List.foldl_cons] at h
    rcases ih (t.Insert r) p h with h' | ⟨r', hr', he⟩
    · simp only [Trie.Insert] at h'
      rcases insertRoute_allRoutes _ _ _ _ h' with h'' | he
      · exact Or.inl h''
      · exact Or.inr ⟨r, List.mem_cons_self .., he⟩
    · exact Or.inr ⟨r', List.mem_cons_of_mem _ hr', he⟩

theorem Match_sound (rs : List Route) (m p : Str) (r : Route) (vs : List Str)
    (h : (mkTrie rs).Match m p = some (r, vs)) : r ∈ rs ∧ r.Method = m := by
  have hmem : (m, r) ∈ (mkTrie rs).root.allRoutes := by
    simp only [Trie.Match] at h
    by_cases h0 : trimSlashes p = []
    · rw [if_pos h0] at h
      cases hl : lookupStr (mkTrie rs).root.routes m with
      | none => rw [hl] at h; simp at h
      | some route =>
        rw [hl] at h
        rw [Option.some.injEq, Prod.mk.injEq] at h
        obtain ⟨h1, _⟩ := h
        subst h1
        exact mem_allRoutes_of_mem_routes _ _ (lookupStr_mem _ _ _ hl)
    · rw [if_neg h0] at h
      have hne : splitSlash (trimSlashes p) ≠ [[]] :=
        fun hc => h0 (splitSlash_eq_single _ hc)
      rw [if_neg (fun hc => hne (And.right hc))] at h
      rw [if_neg (splitSlash_ne_nil _)] at h
      exact matchLoop_mem _ m _ _ 0 _ [] none r vs (fun q hq => hq)
        (fun n' vs' he => by simp at he) h
  rcases foldl_insert_allRoutes rs NewTrie (m, r) hmem with habs | ⟨r', hr', he⟩
  · have hz : NewTrie.root.allRoutes = [] := rfl
    rw [hz] at habs
    exact absurd habs (List.not_mem_nil _)
  · rw [Prod.mk.injEq] at he
    obtain ⟨hm', hr''⟩ := he
    subst hr''
    exact ⟨hr', hm'.symm⟩

/-- C5: a successful Match only ever returns a route that was inserted into
the trie and whose method equals the request method — so a path for which no
route of the request method exists can never match; a failed match makes the
entry point write 404 (never 405) and run no middleware and no handler; in
particular POST /users with only GET /users registered is observably
identical to GET /does-not-exist. -/
theorem claim_C5 :
    (∀ (rs : List Route) (m p : Str) (r : Route) (vs : List Str),
      (mkTrie rs).Match m p = some (r, vs) → r ∈ rs ∧ r.Method = m) ∧
    (∀ (rg : RouterGroup) (m p : Str), dispatch rg m p = .notFound →
      ∀ (interp : Nat → HResp → HResp) (hr : Nat → Ctx → HResp),
        run (dispatch rg m p) interp hr = ⟨404, []⟩) ∧
    dispatch routerC5 (str "POST") (str "/users") = .notFound ∧
    dispatch routerC5 (str "GET") (str "/does-not-exist") = .notFound := by
  refine ⟨Match_sound, ?_, by decide, by decide⟩
  intro rg m p h interp hr
  rw [h]
  rfl

/-- Witness for C5: the GET /users route is found by Match for its own path
and is one of the inserted routes with the right method; and the miss of
POST /users runs nothing, producing the bare 404 response. -/
theorem claim_C5_witness :
    (usersRoute ∈ routerC5.Build ∧ usersRoute.Method = str "GET") ∧
    run (dispatch routerC5 (str "POST") (str "/users")) interpDemo
      (fun _ _ => ⟨200, []⟩) = ⟨404, []⟩ :=
  ⟨claim_C5.1 routerC5.Build (str "GET") (str "/users") usersRoute [] (by decide),
   claim_C5.2.1 routerC5 (str "POST") (str "/users") (by decide) interpDemo (fun _ _ => ⟨200, []⟩)⟩

end Tickit
